import Mathlib

/-!
Verification of the Bitcoin canister heartbeat driver
(src/rs/bitcoin/canister/src/heartbeat.rs).

The wire-to-domain translation (`to_btc_transaction`, `to_btc_block`), the
request construction (`get_successors_request`), the response drain
(`process_adapter_responses`) and the tick function (`heartbeat`) are embedded
from the Rust source.  A Rust panic (an `unwrap()` on a failed hash parse, a
`Vec::remove(0)` on an empty vector, an `unreachable!()` arm) is represented
by `Option`/`none`: a `none` result means the tick trapped and produced no
state.  Metric observations are represented as an explicit list of events
returned beside the state, so that reporting behaviour is visible in the model.

The collaborators this file's claims depend on — the replicated `State`, the
adapter queues, the unstable block tree (`store::insert_block`,
`store::get_unstable_blocks`, `store::main_chain_height`) and the UTXO index —
are not part of the given source excerpt; they are modelled from the
specification, and each such definition is marked `Modelled from the spec`.
-/

namespace BtcSync

/-! ### Wire types (`ic_btc_types_internal`), as consumed by heartbeat.rs -/

/-- Wire outpoint: raw-byte transaction id plus output index. -/
structure OutPoint where
  txid : List Nat
  vout : Nat
deriving DecidableEq

/-- Wire transaction input. -/
structure TxIn where
  previous_output : OutPoint
  script_sig : List Nat
  sequence : Nat
  witness : List (List Nat)
deriving DecidableEq

/-- Wire transaction output. -/
structure TxOut where
  value : Nat
  script_pubkey : List Nat
deriving DecidableEq

/-- Wire transaction. -/
structure Transaction where
  version : Int
  lock_time : Nat
  input : List TxIn
  output : List TxOut
deriving DecidableEq

/-- Wire block header: all hashes are raw byte vectors of arbitrary length. -/
structure BlockHeader where
  version : Int
  prev_blockhash : List Nat
  merkle_root : List Nat
  time : Nat
  bits : Nat
  nonce : Nat
deriving DecidableEq

/-- Wire block. -/
structure Block where
  header : BlockHeader
  txdata : List Transaction
deriving DecidableEq

/-! ### Domain types (the `bitcoin` crate types built by the translator) -/

/-- Domain outpoint: txid is a parsed 32-byte hash. -/
structure BtcOutPoint where
  txid : List Nat
  vout : Nat
deriving DecidableEq

/-- Domain transaction input. -/
structure BtcTxIn where
  previous_output : BtcOutPoint
  script_sig : List Nat
  sequence : Nat
  witness : List (List Nat)
deriving DecidableEq

/-- Domain transaction output. -/
structure BtcTxOut where
  value : Nat
  script_pubkey : List Nat
deriving DecidableEq

/-- Domain transaction. -/
structure BtcTransaction where
  version : Int
  lock_time : Nat
  input : List BtcTxIn
  output : List BtcTxOut
deriving DecidableEq

/-- Domain block header: hashes have passed the 32-byte width check. -/
structure BtcBlockHeader where
  version : Int
  prev_blockhash : List Nat
  merkle_root : List Nat
  time : Nat
  bits : Nat
  nonce : Nat
deriving DecidableEq

/-- Domain block. -/
structure BtcBlock where
  header : BtcBlockHeader
  txdata : List BtcTransaction
deriving DecidableEq

/-! ### Wire translator (from heartbeat.rs) -/

/-- `Hash::from_slice`: succeeds exactly when the slice has the expected
32-byte width; the Rust caller immediately `unwrap()`s the result, so a
`none` here is a panic at the call site. -/
def hash_from_slice (sl : List Nat) : Option (List Nat) :=
  if sl.length = 32 then some sl else none

/-- Element-wise translation of the input list of `to_btc_transaction`:
each input's previous-output txid goes through the fixed-width hash parse
(`Txid::from_hash(Hash::from_slice(..).unwrap())`). -/
def translate_inputs : List TxIn → Option (List BtcTxIn)
  | [] => some []
  | x :: xs => do
    let txid ← hash_from_slice x.previous_output.txid
    let rest ← translate_inputs xs
    pure ({ previous_output := { txid := txid, vout := x.previous_output.vout },
            script_sig := x.script_sig,
            sequence := x.sequence,
            witness := x.witness } :: rest)

/-- `to_btc_transaction` from heartbeat.rs: structural field-by-field mapping;
the only fallible step is the 32-byte txid parse in each input. -/
def to_btc_transaction (t : Transaction) : Option BtcTransaction := do
  let input ← translate_inputs t.input
  pure { version := t.version,
         lock_time := t.lock_time,
         input := input,
         output := t.output.map (fun x =>
           { value := x.value, script_pubkey := x.script_pubkey }) }

/-- Element-wise translation of a block's transaction list. -/
def translate_txs : List Transaction → Option (List BtcTransaction)
  | [] => some []
  | t :: ts => do
    let bt ← to_btc_transaction t
    let rest ← translate_txs ts
    pure (bt :: rest)

/-- `to_btc_block` from heartbeat.rs: the header's previous-block hash and
merkle root go through the fixed-width hash parse, transactions are translated
element-wise. -/
def to_btc_block (b : Block) : Option BtcBlock := do
  let prev ← hash_from_slice b.header.prev_blockhash
  let merkle ← hash_from_slice b.header.merkle_root
  let txdata ← translate_txs b.txdata
  pure { header := { version := b.header.version,
                     prev_blockhash := prev,
                     merkle_root := merkle,
                     time := b.header.time,
                     bits := b.header.bits,
                     nonce := b.header.nonce },
         txdata := txdata }

/-- Modelled from the spec: `BlockHash` is a fixed-size 32-byte opaque
identifier derived deterministically from a block's header fields (the real
code uses a double SHA-256, which is outside the excerpt); modelled as a
deterministic flattening of the header fields padded and cut to the fixed
32-byte width. -/
def block_hash (b : BtcBlock) : List Nat :=
  (b.header.version.natAbs :: b.header.time :: b.header.bits :: b.header.nonce ::
    (b.header.prev_blockhash ++ b.header.merkle_root) ++ List.replicate 32 0).take 32

/-- Modelled from the spec: a transaction id is derived deterministically from
the transaction's fields; modelled as a flattening of those fields. -/
def tx_id (t : BtcTransaction) : List Nat :=
  t.version.natAbs :: t.lock_time ::
    ((t.input.map (fun i => i.previous_output.txid ++ [i.previous_output.vout])).flatten
      ++ (t.output.map (fun o => o.value :: o.script_pubkey)).flatten)

/-! ### Unstable block tree (collaborator, modelled from the spec) -/

/-- Error returned by the tree when a block's parent hash matches no member. -/
structure BlockDoesNotExtendTree where
  hash : List Nat
deriving DecidableEq

/-- Modelled from the spec: the unstable block tree is a rooted forest with
one designated anchor (root) block, always present, plus the unstable blocks
attached above it, kept in insertion order (an order stable across calls). -/
structure BlockTree where
  root : BtcBlock
  rest : List BtcBlock
deriving DecidableEq

/-- Modelled from the spec: `unstable_blocks` enumerates the tree's members,
anchor first, in an order stable across calls. -/
def BlockTree.unstable_blocks (t : BlockTree) : List BtcBlock :=
  t.root :: t.rest

/-- Hashes of all current tree members. -/
def BlockTree.member_hashes (t : BlockTree) : List (List Nat) :=
  t.unstable_blocks.map block_hash

/-- Modelled from the spec: `insert` attaches a block under an existing member
matched by parent-hash equality; on failure the tree is left untouched and
`BlockDoesNotExtendTree` is returned (atomic accept/reject). -/
def BlockTree.insert (t : BlockTree) (b : BtcBlock) :
    Except BlockDoesNotExtendTree BlockTree :=
  if b.header.prev_blockhash ∈ t.member_hashes then
    .ok { t with rest := t.rest ++ [b] }
  else
    .error ⟨block_hash b⟩

/-- Modelled from the spec: length of the longest parent-linked chain above a
given hash, with fuel bounding the recursion depth by the number of blocks. -/
def chain_len (blocks : List BtcBlock) : List Nat → Nat → Nat
  | _, 0 => 0
  | h, fuel + 1 =>
    ((blocks.filter (fun b => b.header.prev_blockhash = h)).map
      (fun b => 1 + chain_len blocks (block_hash b) fuel)).foldl max 0

/-- Modelled from the spec: `main_chain_height` is the height of the longest
branch above the stable anchor. -/
def BlockTree.main_chain_height (t : BlockTree) : Nat :=
  chain_len t.rest (block_hash t.root) t.rest.length

/-! ### UTXO index (collaborator, modelled from the spec) -/

/-- A spendable-output record tracked by the UTXO index. -/
structure Utxo where
  outpoint : BtcOutPoint
  value : Nat
  script_pubkey : List Nat
deriving DecidableEq

/-- Modelled from the spec: the UTXO index's visible state — the network tag
(used as a metrics label), the outpoint-to-output mapping, and the
address-to-outpoints index (owned by the collaborator; only its size is read
here). -/
structure UtxoState where
  network : Nat
  utxos : List Utxo
  address_to_outpoints : List Nat
deriving DecidableEq

/-- Modelled from the spec: applying one transaction consumes the referenced
outputs and creates the transaction's own outputs. -/
def UtxoState.apply_tx (u : UtxoState) (t : BtcTransaction) : UtxoState :=
  let remaining := u.utxos.filter
    (fun e => t.input.all (fun i => i.previous_output ≠ e.outpoint))
  let created := (t.output.enum).map (fun p =>
    { outpoint := { txid := tx_id t, vout := p.1 },
      value := p.2.value,
      script_pubkey := p.2.script_pubkey })
  { u with utxos := remaining ++ created }

/-- Modelled from the spec: a block is applied transaction by transaction, in
order. -/
def UtxoState.apply_block (u : UtxoState) (b : BtcBlock) : UtxoState :=
  b.txdata.foldl UtxoState.apply_tx u

/-! ### Adapter queue (collaborator, modelled from the spec) -/

/-- Request wire message built by the driver. -/
structure GetSuccessorsRequest where
  anchor : List Nat
  processed_block_hashes : List (List Nat)
deriving DecidableEq

/-- Response wire message delivered by the adapter. -/
structure GetSuccessorsResponse where
  blocks : List Block
  next : List (List Nat)
deriving DecidableEq

/-- Closed union of adapter request kinds (`BitcoinAdapterRequestWrapper`). -/
inductive RequestWrapper where
  | getSuccessorsRequest : GetSuccessorsRequest → RequestWrapper
  | sendTransactionRequest : List Nat → RequestWrapper
deriving DecidableEq

/-- Closed union of adapter response kinds (`BitcoinAdapterResponseWrapper`). -/
inductive ResponseWrapper where
  | getSuccessorsResponse : GetSuccessorsResponse → ResponseWrapper
  | sendTransactionResponse : List Nat → ResponseWrapper
deriving DecidableEq

/-- Errors surfaced by the replicated-state queue operations
(`BitcoinStateError`). -/
inductive BitcoinStateError where
  | queueFull : Nat → BitcoinStateError
  | testnetFeatureNotEnabled : BitcoinStateError
  | nonMatchingResponse : Nat → BitcoinStateError
deriving DecidableEq

/-- Modelled from the spec: the adapter queue holds at most one outstanding
request and a FIFO sequence of received, unprocessed responses. -/
structure AdapterQueues where
  requests : List RequestWrapper
  responses : List ResponseWrapper
deriving DecidableEq

/-- Whether a `GetSuccessorsRequest` is currently outstanding. -/
def AdapterQueues.has_in_flight_get_successors_requests (q : AdapterQueues) : Bool :=
  q.requests.any (fun r => match r with
    | .getSuccessorsRequest _ => true
    | .sendTransactionRequest _ => false)

/-- Modelled from the spec: `push_request` fails with `QueueFull`, without
mutating state, if any request is already outstanding. -/
def AdapterQueues.push_request (q : AdapterQueues) (r : RequestWrapper) :
    Except BitcoinStateError AdapterQueues :=
  if q.requests.isEmpty then
    .ok { q with requests := [r] }
  else
    .error (.queueFull q.requests.length)

/-- Modelled from the spec: `pop_response` removes and returns the oldest
unprocessed response, FIFO order preserved. -/
def AdapterQueues.pop_response (q : AdapterQueues) :
    Option (ResponseWrapper × AdapterQueues) :=
  match q.responses with
  | [] => none
  | r :: rs => some (r, { q with responses := rs })

/-! ### Replicated state (collaborator, modelled from the spec) -/

/-- Modelled from the spec: the working state checked out at the start of a
tick — the unstable block tree, the UTXO index, and the adapter queues. -/
structure State where
  tree : BlockTree
  utxos : UtxoState
  adapter_queues : AdapterQueues
deriving DecidableEq

namespace store

/-- Modelled from the spec: `store::get_unstable_blocks` enumerates the tree's
current members, anchor first. -/
def get_unstable_blocks (s : State) : List BtcBlock :=
  s.tree.unstable_blocks

/-- Modelled from the spec: `store::insert_block` attaches the block to the
tree; on success the UTXO index is notified to apply its transactions, on
failure the state is returned untouched. -/
def insert_block (s : State) (b : BtcBlock) :
    Except BlockDoesNotExtendTree State :=
  match s.tree.insert b with
  | .ok t => .ok { s with tree := t, utxos := s.utxos.apply_block b }
  | .error e => .error e

/-- Modelled from the spec: `store::main_chain_height`. -/
def main_chain_height (s : State) : Nat :=
  s.tree.main_chain_height

end store

/-! ### The sync driver (from heartbeat.rs) -/

/-- Feature switch for Bitcoin block synchronization. -/
inductive BitcoinFeature where
  | enabled
  | paused
  | disabled
deriving DecidableEq

/-- One metric observation emitted during a tick; the second argument is the
network label. -/
inductive MetricEvent where
  | observe_chain_height : Nat → Nat → MetricEvent
  | observe_utxos_length : Nat → Nat → MetricEvent
  | observe_address_to_outpoints_length : Nat → Nat → MetricEvent
deriving DecidableEq

/-- The hash list computed for the debug log line in the drain loop:
`r.blocks.iter().map(|x| to_btc_block(x).block_hash()).collect()`.  Every
block of the response is translated here, so a single malformed block makes
this `none` (a panic) before any block of the response is inserted. -/
def collect_hashes : List Block → Option (List (List Nat))
  | [] => some []
  | b :: bs => do
    let bb ← to_btc_block b
    let rest ← collect_hashes bs
    pure (block_hash bb :: rest)

/-- The inner `for block in r.blocks` loop of `process_adapter_responses`:
translate each block, attempt insertion, log and continue on
`BlockDoesNotExtendTree`. -/
def process_blocks (s : State) : List Block → Option State
  | [] => some s
  | b :: bs => do
    let btc_block ← to_btc_block b
    match store.insert_block s btc_block with
    | .ok s1 => process_blocks s1 bs
    | .error _ => process_blocks s bs

/-- Handling of one `GetSuccessorsResponse`: the debug-log hash collection
runs first (translating every block of the response), then each block is
translated again and inserted in order. -/
def process_response (s : State) (r : GetSuccessorsResponse) : Option State := do
  let _block_hashes ← collect_hashes r.blocks
  process_blocks s r.blocks

/-- The `while let Some(response) = pop_response()` drain loop, recursing on
the list of queued responses; each step pops the head off the queue before
handling it.  `SendTransactionResponse` items are popped and ignored. -/
def drain_responses : State → List ResponseWrapper → Option State
  | s, [] => some s
  | s, resp :: rest =>
    let s1 : State :=
      { s with adapter_queues := { s.adapter_queues with responses := rest } }
    match resp with
    | .getSuccessorsResponse r => do
      let s2 ← process_response s1 r
      drain_responses s2 rest
    | .sendTransactionResponse _ => drain_responses s1 rest

/-- `process_adapter_responses` from heartbeat.rs: drain every queued
response, then return the height of the chain. -/
def process_adapter_responses (s : State) : Option (State × Nat) := do
  let s1 ← drain_responses s s.adapter_queues.responses
  pure (s1, store.main_chain_height s1)

/-- `get_successors_request` from heartbeat.rs: collect the hashes of all
unstable blocks, remove the first to use as the anchor (`Vec::remove(0)`,
a panic — `none` — on an empty vector), the remainder becomes the
exclusion list. -/
def get_successors_request (s : State) : Option GetSuccessorsRequest :=
  match (store.get_unstable_blocks s).map block_hash with
  | [] => none
  | anchor :: processed => some ⟨anchor, processed⟩

/-- `BitcoinCanister::heartbeat` from heartbeat.rs: drain all adapter
responses, then — only when the feature is enabled — observe the chain height
and index sizes and, when no `GetSuccessors` request is in flight, build and
push a new request; a `QueueFull` push error is logged and ignored, the other
push errors are `unreachable!()` (a panic, hence `none`).  Returns the updated
state and the metric observations of the tick. -/
def heartbeat (s : State) (bitcoin_feature : BitcoinFeature) :
    Option (State × List MetricEvent) := do
  let (st, height) ← process_adapter_responses s
  match bitcoin_feature with
  | .enabled =>
    let network := st.utxos.network
    let events := [MetricEvent.observe_chain_height height network,
                   MetricEvent.observe_utxos_length st.utxos.utxos.length network,
                   MetricEvent.observe_address_to_outpoints_length
                     st.utxos.address_to_outpoints.length network]
    if st.adapter_queues.has_in_flight_get_successors_requests then
      pure (st, events)
    else do
      let request ← get_successors_request st
      match st.adapter_queues.push_request (.getSuccessorsRequest request) with
      | .ok q => pure ({ st with adapter_queues := q }, events)
      | .error (.queueFull _) => pure (st, events)
      | .error .testnetFeatureNotEnabled => none
      | .error (.nonMatchingResponse _) => none
  | .paused => pure (st, [])
  | .disabled => pure (st, [])

/-! ### Derived notions used by the statements -/

/-- The wire blocks carried by one queued response. -/
def response_blocks : ResponseWrapper → List Block
  | .getSuccessorsResponse r => r.blocks
  | .sendTransactionResponse _ => []

/-- All wire blocks queued in a state's responses, in arrival order. -/
def all_wire_blocks (s : State) : List Block :=
  (s.adapter_queues.responses.map response_blocks).flatten

/-- One attempted insertion of a translated block: keep the previous state
when the block does not extend the tree. -/
def try_insert (s : State) (b : BtcBlock) : State :=
  match store.insert_block s b with
  | .ok s1 => s1
  | .error _ => s

/-- One attempted insertion of a wire block: translate, insert, and keep the
previous state when the block does not extend the tree.  Folding this over a
block sequence is the state effect of the drain on the tree and UTXO index. -/
def try_insert_wire (s : State) (w : Block) : State :=
  match to_btc_block w with
  | none => s
  | some b => try_insert s b

/-- Replace a state's queued responses. -/
def set_responses (s : State) (rs : List ResponseWrapper) : State :=
  { s with adapter_queues := { s.adapter_queues with responses := rs } }

/-- Append newly delivered responses to a state's queue. -/
def feed (s : State) (rs : List ResponseWrapper) : State :=
  set_responses s (s.adapter_queues.responses ++ rs)

/-- Run a sequence of ticks, delivering one batch of responses before each
tick; `none` when some tick traps. -/
def run_ticks (f : BitcoinFeature) : State → List (List ResponseWrapper) → Option State
  | s, [] => some s
  | s, rs :: rest => do
    let (s1, _) ← heartbeat (feed s rs) f
    run_ticks f s1 rest

/-- The three metric observations the enabled branch of `heartbeat` emits for
the post-drain state and chain height. -/
def tick_metrics (u : State) (n : Nat) : List MetricEvent :=
  [MetricEvent.observe_chain_height n u.utxos.network,
   MetricEvent.observe_utxos_length u.utxos.utxos.length u.utxos.network,
   MetricEvent.observe_address_to_outpoints_length
     u.utxos.address_to_outpoints.length u.utxos.network]

/-- A wire block has a fixed-length hash field of the wrong byte width:
the header's previous-block hash, the header's merkle root, or some input's
previous-output transaction id. -/
def bad_hash (w : Block) : Prop :=
  w.header.prev_blockhash.length ≠ 32 ∨ w.header.merkle_root.length ≠ 32 ∨
    ∃ t ∈ w.txdata, ∃ i ∈ t.input, i.previous_output.txid.length ≠ 32

instance (w : Block) : Decidable (bad_hash w) := by
  unfold bad_hash
  infer_instance

/-! ### Concrete states used as witnesses and counterexamples -/

/-- A stable anchor block with well-formed 32-byte hash fields. -/
def genesisBlock : BtcBlock :=
  { header := { version := 1, prev_blockhash := List.replicate 32 0,
                merkle_root := List.replicate 32 0, time := 0, bits := 0, nonce := 0 },
    txdata := [] }

/-- A state whose tree holds only the anchor and whose queues are empty. -/
def initialState : State :=
  { tree := { root := genesisBlock, rest := [] },
    utxos := { network := 0, utxos := [], address_to_outpoints := [] },
    adapter_queues := { requests := [], responses := [] } }

/-- A wire block whose previous-block hash has the wrong byte width. -/
def malformedWireBlock : Block :=
  { header := { version := 1, prev_blockhash := [0],
                merkle_root := List.replicate 32 0, time := 0, bits := 0, nonce := 0 },
    txdata := [] }

/-- A well-formed wire block extending the anchor. -/
def goodWireBlock : Block :=
  { header := { version := 1, prev_blockhash := block_hash genesisBlock,
                merkle_root := List.replicate 32 0, time := 1, bits := 0, nonce := 0 },
    txdata := [] }

/-- A well-formed wire block whose parent hash matches no tree member. -/
def orphanWireBlock : Block :=
  { header := { version := 1, prev_blockhash := List.replicate 32 7,
                merkle_root := List.replicate 32 0, time := 2, bits := 0, nonce := 0 },
    txdata := [] }

/-- The domain translation of `orphanWireBlock`. -/
def orphanBtcBlock : BtcBlock :=
  { header := { version := 1, prev_blockhash := List.replicate 32 7,
                merkle_root := List.replicate 32 0, time := 2, bits := 0, nonce := 0 },
    txdata := [] }

/-- A response carrying one well-formed extending block. -/
def goodResponse : ResponseWrapper :=
  .getSuccessorsResponse { blocks := [goodWireBlock], next := [] }

/-- A response carrying one block with a malformed hash. -/
def malformedResponse : ResponseWrapper :=
  .getSuccessorsResponse { blocks := [malformedWireBlock], next := [] }

/-- A state whose queue holds a single malformed response. -/
def malformedState : State :=
  set_responses initialState [malformedResponse]

/-- A state queuing a malformed response followed by a well-formed one. -/
def malformedThenGoodState : State :=
  set_responses initialState [malformedResponse, goodResponse]

/-- A state queuing a well-formed response followed by a malformed one. -/
def goodThenMalformedState : State :=
  set_responses initialState [goodResponse, malformedResponse]

/-- A state with a `GetSuccessors` request already in flight. -/
def inFlightState : State :=
  { initialState with
    adapter_queues :=
      { requests := [.getSuccessorsRequest ⟨block_hash genesisBlock, []⟩],
        responses := [goodResponse] } }

/-- A state whose queued responses are all well-formed. -/
def wellFormedState : State :=
  set_responses initialState [goodResponse, .sendTransactionResponse [1]]

/-! ### Definitional equation lemmas for the embedded functions -/

theorem hash_from_slice_of_len {l : List Nat} (h : l.length = 32) :
    hash_from_slice l = some l := by
  unfold hash_from_slice
  rw [if_pos h]

theorem hash_from_slice_of_ne {l : List Nat} (h : l.length ≠ 32) :
    hash_from_slice l = none := by
  unfold hash_from_slice
  rw [if_neg h]

theorem translate_inputs_cons (x : TxIn) (l : List TxIn) :
    translate_inputs (x :: l) =
      (hash_from_slice x.previous_output.txid).bind (fun t =>
        (translate_inputs l).bind (fun r =>
          some ({ previous_output := { txid := t, vout := x.previous_output.vout },
                  script_sig := x.script_sig,
                  sequence := x.sequence,
                  witness := x.witness } :: r))) := rfl

theorem to_btc_transaction_def (t : Transaction) :
    to_btc_transaction t =
      (translate_inputs t.input).bind (fun i =>
        some { version := t.version,
               lock_time := t.lock_time,
               input := i,
               output := t.output.map (fun x =>
                 { value := x.value, script_pubkey := x.script_pubkey }) }) := rfl

theorem translate_txs_cons (t : Transaction) (l : List Transaction) :
    translate_txs (t :: l) =
      (to_btc_transaction t).bind (fun b =>
        (translate_txs l).bind (fun r => some (b :: r))) := rfl

theorem to_btc_block_def (w : Block) :
    to_btc_block w =
      (hash_from_slice w.header.prev_blockhash).bind (fun p =>
        (hash_from_slice w.header.merkle_root).bind (fun m =>
          (translate_txs w.txdata).bind (fun d =>
            some { header := { version := w.header.version,
                               prev_blockhash := p,
                               merkle_root := m,
                               time := w.header.time,
                               bits := w.header.bits,
                               nonce := w.header.nonce },
                   txdata := d }))) := rfl

/-! ### A wrong-width hash field makes the translation fail -/

theorem translate_inputs_none {i : TxIn} (h : i.previous_output.txid.length ≠ 32) :
    ∀ l : List TxIn, i ∈ l → translate_inputs l = none := by
  intro l
  induction l with
  | nil => intro hm; cases hm
  | cons x xs ih =>
    intro hm
    rw [translate_inputs_cons]
    rcases List.mem_cons.mp hm with he | he
    · rw [← he, hash_from_slice_of_ne h, Option.none_bind]
    · cases hx : hash_from_slice x.previous_output.txid with
      | none => rw [Option.none_bind]
      | some t => rw [Option.some_bind, ih he, Option.none_bind]

theorem to_btc_transaction_none {t : Transaction}
    (h : ∃ i ∈ t.input, i.previous_output.txid.length ≠ 32) :
    to_btc_transaction t = none := by
  obtain ⟨i, hm, hlen⟩ := h
  rw [to_btc_transaction_def, translate_inputs_none hlen t.input hm, Option.none_bind]

theorem translate_txs_none {t : Transaction} (h : to_btc_transaction t = none) :
    ∀ l : List Transaction, t ∈ l → translate_txs l = none := by
  intro l
  induction l with
  | nil => intro hm; cases hm
  | cons x xs ih =>
    intro hm
    rw [translate_txs_cons]
    rcases List.mem_cons.mp hm with he | he
    · rw [← he, h, Option.none_bind]
    · cases hx : to_btc_transaction x with
      | none => rw [Option.none_bind]
      | some b => rw [Option.some_bind, ih he, Option.none_bind]

theorem to_btc_block_none {w : Block} (h : bad_hash w) : to_btc_block w = none := by
  rw [to_btc_block_def]
  rcases h with h | h | h
  · rw [hash_from_slice_of_ne h, Option.none_bind]
  · cases hp : hash_from_slice w.header.prev_blockhash with
    | none => rw [Option.none_bind]
    | some p => rw [Option.some_bind, hash_from_slice_of_ne h, Option.none_bind]
  · obtain ⟨t, hm, hi⟩ := h
    have htx : translate_txs w.txdata = none :=
      translate_txs_none (to_btc_transaction_none hi) w.txdata hm
    cases hp : hash_from_slice w.header.prev_blockhash with
    | none => rw [Option.none_bind]
    | some p =>
      rw [Option.some_bind]
      cases hq : hash_from_slice w.header.merkle_root with
      | none => rw [Option.none_bind]
      | some m => rw [Option.some_bind, htx, Option.none_bind]

/-! ### Debug-log hash collection -/

theorem collect_hashes_cons (b : Block) (l : List Block) :
    collect_hashes (b :: l) =
      (to_btc_block b).bind (fun x =>
        (collect_hashes l).bind (fun r => some (block_hash x :: r))) := rfl

theorem collect_hashes_some :
    ∀ l : List Block, (∀ w ∈ l, (to_btc_block w).isSome) →
      ∃ r, collect_hashes l = some r := by
  intro l
  induction l with
  | nil => intro _; exact ⟨[], rfl⟩
  | cons b l ih =>
    intro h
    obtain ⟨x, hx⟩ := Option.isSome_iff_exists.mp (h b (List.mem_cons_self b l))
    obtain ⟨r, hr⟩ := ih (fun w hw => h w (List.mem_cons_of_mem b hw))
    refine ⟨block_hash x :: r, ?_⟩
    rw [collect_hashes_cons, hx, Option.some_bind, hr, Option.some_bind]

theorem collect_hashes_none {w : Block} (h : to_btc_block w = none) :
    ∀ l : List Block, w ∈ l → collect_hashes l = none := by
  intro l
  induction l with
  | nil => intro hm; cases hm
  | cons b l ih =>
    intro hm
    rw [collect_hashes_cons]
    rcases List.mem_cons.mp hm with he | he
    · rw [← he, h, Option.none_bind]
    · cases hb : to_btc_block b with
      | none => rw [Option.none_bind]
      | some x => rw [Option.some_bind, ih he, Option.none_bind]

/-! ### Tree insertion and its frame properties -/

theorem tree_insert_of_mem {t : BlockTree} {b : BtcBlock}
    (h : b.header.prev_blockhash ∈ t.member_hashes) :
    t.insert b = .ok { t with rest := t.rest ++ [b] } := by
  unfold BlockTree.insert
  rw [if_pos h]

theorem tree_insert_of_not_mem {t : BlockTree} {b : BtcBlock}
    (h : b.header.prev_blockhash ∉ t.member_hashes) :
    t.insert b = .error ⟨block_hash b⟩ := by
  unfold BlockTree.insert
  rw [if_neg h]

theorem insert_block_of_mem (s : State) (b : BtcBlock)
    (h : b.header.prev_blockhash ∈ s.tree.member_hashes) :
    store.insert_block s b =
      .ok { s with tree := { s.tree with rest := s.tree.rest ++ [b] },
                   utxos := s.utxos.apply_block b } := by
  unfold store.insert_block
  rw [tree_insert_of_mem h]

theorem insert_block_of_not_mem (s : State) (b : BtcBlock)
    (h : b.header.prev_blockhash ∉ s.tree.member_hashes) :
    store.insert_block s b = .error ⟨block_hash b⟩ := by
  unfold store.insert_block
  rw [tree_insert_of_not_mem h]

theorem try_insert_of_mem (s : State) (b : BtcBlock)
    (h : b.header.prev_blockhash ∈ s.tree.member_hashes) :
    try_insert s b = { s with tree := { s.tree with rest := s.tree.rest ++ [b] },
                              utxos := s.utxos.apply_block b } := by
  unfold try_insert
  rw [insert_block_of_mem s b h]

theorem try_insert_of_not_mem (s : State) (b : BtcBlock)
    (h : b.header.prev_blockhash ∉ s.tree.member_hashes) :
    try_insert s b = s := by
  unfold try_insert
  rw [insert_block_of_not_mem s b h]

theorem try_insert_queues (s : State) (b : BtcBlock) :
    (try_insert s b).adapter_queues = s.adapter_queues := by
  by_cases h : b.header.prev_blockhash ∈ s.tree.member_hashes
  · rw [try_insert_of_mem s b h]
  · rw [try_insert_of_not_mem s b h]

theorem try_insert_set_responses (s : State) (r : List ResponseWrapper) (b : BtcBlock) :
    try_insert (set_responses s r) b = set_responses (try_insert s b) r := by
  by_cases h : b.header.prev_blockhash ∈ s.tree.member_hashes
  · rw [try_insert_of_mem s b h,
      try_insert_of_mem (set_responses s r) b h]
    rfl
  · rw [try_insert_of_not_mem s b h,
      try_insert_of_not_mem (set_responses s r) b h]

theorem try_insert_wire_of_none {w : Block} (s : State) (h : to_btc_block w = none) :
    try_insert_wire s w = s := by
  unfold try_insert_wire
  rw [h]

theorem try_insert_wire_of_some {w : Block} {b : BtcBlock} (s : State)
    (h : to_btc_block w = some b) :
    try_insert_wire s w = try_insert s b := by
  unfold try_insert_wire
  rw [h]

theorem try_insert_wire_queues (s : State) (w : Block) :
    (try_insert_wire s w).adapter_queues = s.adapter_queues := by
  cases h : to_btc_block w with
  | none => rw [try_insert_wire_of_none s h]
  | some b => rw [try_insert_wire_of_some s h, try_insert_queues]

theorem try_insert_wire_set_responses (s : State) (r : List ResponseWrapper) (w : Block) :
    try_insert_wire (set_responses s r) w = set_responses (try_insert_wire s w) r := by
  cases h : to_btc_block w with
  | none => rw [try_insert_wire_of_none s h, try_insert_wire_of_none (set_responses s r) h]
  | some b =>
    rw [try_insert_wire_of_some s h, try_insert_wire_of_some (set_responses s r) h,
      try_insert_set_responses]

theorem foldl_try_insert_queues (l : List Block) :
    ∀ s : State, (List.foldl try_insert_wire s l).adapter_queues = s.adapter_queues := by
  induction l with
  | nil => intro s; rfl
  | cons w l ih =>
    intro s
    rw [List.foldl_cons, ih (try_insert_wire s w), try_insert_wire_queues]

theorem foldl_try_insert_set_responses (l : List Block) :
    ∀ (s : State) (r : List ResponseWrapper),
      List.foldl try_insert_wire (set_responses s r) l =
        set_responses (List.foldl try_insert_wire s l) r := by
  induction l with
  | nil => intro s r; rfl
  | cons w l ih =>
    intro s r
    rw [List.foldl_cons, try_insert_wire_set_responses, ih, List.foldl_cons]

/-! ### Queue operation lemmas -/

theorem push_request_of_empty (q : AdapterQueues) (r : RequestWrapper)
    (h : q.requests = []) :
    q.push_request r = .ok { q with requests := [r] } := by
  unfold AdapterQueues.push_request
  rw [h]
  rfl

theorem push_request_of_nonempty (q : AdapterQueues) (r : RequestWrapper)
    (h : q.requests ≠ []) :
    q.push_request r = .error (.queueFull q.requests.length) := by
  obtain ⟨b, l, hl⟩ := List.exists_cons_of_ne_nil h
  unfold AdapterQueues.push_request
  rw [hl]
  rfl

theorem has_in_flight_congr {p q : AdapterQueues} (h : p.requests = q.requests) :
    p.has_in_flight_get_successors_requests = q.has_in_flight_get_successors_requests := by
  unfold AdapterQueues.has_in_flight_get_successors_requests
  rw [h]

theorem has_in_flight_of_nil {q : AdapterQueues} (h : q.requests = []) :
    q.has_in_flight_get_successors_requests = false := by
  unfold AdapterQueues.has_in_flight_get_successors_requests
  rw [h]
  rfl

theorem set_responses_set (s : State) (a b : List ResponseWrapper) :
    set_responses (set_responses s a) b = set_responses s b := rfl

theorem set_responses_eq_self {s : State} {r : List ResponseWrapper}
    (h : s.adapter_queues.responses = r) : set_responses s r = s := by
  obtain ⟨t, u, q⟩ := s
  obtain ⟨a, b⟩ := q
  simp only [set_responses]
  have hb : b = r := h
  rw [hb]

/-! ### The block-insertion loop -/

theorem process_blocks_nil (s : State) : process_blocks s [] = some s := rfl

theorem process_blocks_cons (s : State) (w : Block) (l : List Block) :
    process_blocks s (w :: l) =
      (to_btc_block w).bind (fun b =>
        match store.insert_block s b with
        | .ok s1 => process_blocks s1 l
        | .error _ => process_blocks s l) := rfl

theorem process_blocks_cons_none {s : State} {w : Block} (l : List Block)
    (h : to_btc_block w = none) :
    process_blocks s (w :: l) = none := by
  rw [process_blocks_cons, h, Option.none_bind]

theorem process_blocks_cons_ok {s u : State} {w : Block} {b : BtcBlock} (l : List Block)
    (h : to_btc_block w = some b) (h2 : store.insert_block s b = .ok u) :
    process_blocks s (w :: l) = process_blocks u l := by
  rw [process_blocks_cons, h, Option.some_bind, h2]

theorem process_blocks_cons_err {s : State} {w : Block} {b : BtcBlock}
    {e : BlockDoesNotExtendTree} (l : List Block)
    (h : to_btc_block w = some b) (h2 : store.insert_block s b = .error e) :
    process_blocks s (w :: l) = process_blocks s l := by
  rw [process_blocks_cons, h, Option.some_bind, h2]

theorem process_blocks_eq_foldl :
    ∀ (l : List Block) (s : State), (∀ w ∈ l, (to_btc_block w).isSome) →
      process_blocks s l = some (List.foldl try_insert_wire s l) := by
  intro l
  induction l with
  | nil => intro s _; rfl
  | cons w l ih =>
    intro s h
    obtain ⟨b, hb⟩ := Option.isSome_iff_exists.mp (h w (List.mem_cons_self w l))
    have hrest : ∀ v ∈ l, (to_btc_block v).isSome :=
      fun v hv => h v (List.mem_cons_of_mem w hv)
    rw [List.foldl_cons, try_insert_wire_of_some s hb]
    by_cases hm : b.header.prev_blockhash ∈ s.tree.member_hashes
    · rw [process_blocks_cons_ok l hb (insert_block_of_mem s b hm),
        try_insert_of_mem s b hm]
      exact ih _ hrest
    · rw [process_blocks_cons_err l hb (insert_block_of_not_mem s b hm),
        try_insert_of_not_mem s b hm]
      exact ih _ hrest

theorem process_blocks_queues :
    ∀ (l : List Block) {s u : State}, process_blocks s l = some u →
      u.adapter_queues = s.adapter_queues := by
  intro l
  induction l with
  | nil =>
    intro s u h
    have h2 : some s = some u := h
    rw [Option.some.inj h2]
  | cons w l ih =>
    intro s u h
    cases hb : to_btc_block w with
    | none => rw [process_blocks_cons_none l hb] at h; cases h
    | some b =>
      by_cases hm : b.header.prev_blockhash ∈ s.tree.member_hashes
      · rw [process_blocks_cons_ok l hb (insert_block_of_mem s b hm)] at h
        rw [ih h]
      · rw [process_blocks_cons_err l hb (insert_block_of_not_mem s b hm)] at h
        exact ih h

/-! ### Response handling and the drain loop -/

theorem process_response_def (s : State) (r : GetSuccessorsResponse) :
    process_response s r =
      (collect_hashes r.blocks).bind (fun _ => process_blocks s r.blocks) := rfl

theorem process_response_some (s : State) (r : GetSuccessorsResponse)
    (h : ∀ w ∈ r.blocks, (to_btc_block w).isSome) :
    process_response s r = some (List.foldl try_insert_wire s r.blocks) := by
  obtain ⟨x, hx⟩ := collect_hashes_some r.blocks h
  rw [process_response_def, hx, Option.some_bind]
  exact process_blocks_eq_foldl r.blocks s h

theorem process_response_none {w : Block} (s : State) (r : GetSuccessorsResponse)
    (hm : w ∈ r.blocks) (h : to_btc_block w = none) :
    process_response s r = none := by
  rw [process_response_def, collect_hashes_none h r.blocks hm, Option.none_bind]

theorem process_response_queues {s u : State} {r : GetSuccessorsResponse}
    (h : process_response s r = some u) :
    u.adapter_queues = s.adapter_queues := by
  rw [process_response_def] at h
  cases hc : collect_hashes r.blocks with
  | none => rw [hc, Option.none_bind] at h; cases h
  | some x =>
    rw [hc, Option.some_bind] at h
    exact process_blocks_queues r.blocks h

theorem drain_responses_nil (s : State) : drain_responses s [] = some s := rfl

theorem drain_responses_cons_get (s : State) (r : GetSuccessorsResponse)
    (l : List ResponseWrapper) :
    drain_responses s (.getSuccessorsResponse r :: l) =
      (process_response (set_responses s l) r).bind (fun u => drain_responses u l) := rfl

theorem drain_responses_cons_send (s : State) (x : List Nat) (l : List ResponseWrapper) :
    drain_responses s (.sendTransactionResponse x :: l) =
      drain_responses (set_responses s l) l := rfl

theorem drain_responses_requests :
    ∀ (l : List ResponseWrapper) {s u : State}, drain_responses s l = some u →
      u.adapter_queues.requests = s.adapter_queues.requests := by
  intro l
  induction l with
  | nil =>
    intro s u h
    have h2 : some s = some u := h
    rw [Option.some.inj h2]
  | cons resp rest ih =>
    intro s u h
    cases resp with
    | getSuccessorsResponse r =>
      rw [drain_responses_cons_get] at h
      cases hp : process_response (set_responses s rest) r with
      | none => rw [hp, Option.none_bind] at h; cases h
      | some v =>
        rw [hp, Option.some_bind] at h
        rw [ih h, process_response_queues hp]
        rfl
    | sendTransactionResponse x =>
      rw [drain_responses_cons_send] at h
      rw [ih h]
      rfl

theorem drain_responses_eq :
    ∀ (l : List ResponseWrapper) (s : State), s.adapter_queues.responses = l →
      (∀ w ∈ (l.map response_blocks).flatten, (to_btc_block w).isSome) →
      drain_responses s l =
        some (set_responses
          (List.foldl try_insert_wire s ((l.map response_blocks).flatten)) []) := by
  intro l
  induction l with
  | nil =>
    intro s hr _
    rw [drain_responses_nil, List.map_nil, List.flatten_nil, List.foldl_nil,
      set_responses_eq_self hr]
  | cons resp rest ih =>
    intro s hr h
    have hflat : ((resp :: rest).map response_blocks).flatten =
        response_blocks resp ++ (rest.map response_blocks).flatten := by
      rw [List.map_cons, List.flatten_cons]
    cases resp with
    | sendTransactionResponse x =>
      rw [drain_responses_cons_send,
        ih (set_responses s rest) rfl (by
          intro w hw
          exact h w (by rw [hflat]; exact List.mem_append_right _ hw)),
        foldl_try_insert_set_responses, set_responses_set, hflat]
      rfl
    | getSuccessorsResponse r =>
      have hblocks : ∀ w ∈ r.blocks, (to_btc_block w).isSome := by
        intro w hw
        exact h w (by rw [hflat]; exact List.mem_append_left _ hw)
      have hrest : ∀ w ∈ (rest.map response_blocks).flatten, (to_btc_block w).isSome := by
        intro w hw
        exact h w (by rw [hflat]; exact List.mem_append_right _ hw)
      rw [drain_responses_cons_get,
        process_response_some (set_responses s rest) r hblocks, Option.some_bind,
        foldl_try_insert_set_responses,
        ih (set_responses (List.foldl try_insert_wire s r.blocks) rest) rfl hrest,
        foldl_try_insert_set_responses, set_responses_set, hflat, List.foldl_append]
      rfl

theorem drain_responses_none {w : Block} (hw : to_btc_block w = none) :
    ∀ (l : List ResponseWrapper) (s : State), (∃ r ∈ l, w ∈ response_blocks r) →
      drain_responses s l = none := by
  intro l
  induction l with
  | nil =>
    intro s h
    obtain ⟨r, hr, _⟩ := h
    cases hr
  | cons resp rest ih =>
    intro s h
    obtain ⟨r, hr, hm⟩ := h
    rcases List.mem_cons.mp hr with he | he
    · cases resp with
      | sendTransactionResponse x =>
        rw [he] at hm
        cases hm
      | getSuccessorsResponse g =>
        rw [he] at hm
        rw [drain_responses_cons_get,
          process_response_none (set_responses s rest) g hm hw, Option.none_bind]
    · cases resp with
      | sendTransactionResponse x =>
        rw [drain_responses_cons_send]
        exact ih (set_responses s rest) ⟨r, he, hm⟩
      | getSuccessorsResponse g =>
        rw [drain_responses_cons_get]
        cases hp : process_response (set_responses s rest) g with
        | none => rw [Option.none_bind]
        | some u =>
          rw [Option.some_bind]
          exact ih u ⟨r, he, hm⟩

/-! ### Heartbeat equation lemmas -/

theorem process_adapter_responses_def (s : State) :
    process_adapter_responses s =
      (drain_responses s s.adapter_queues.responses).bind (fun u =>
        some (u, store.main_chain_height u)) := rfl

theorem get_successors_request_eq (s : State) :
    get_successors_request s =
      some ⟨block_hash s.tree.root, s.tree.rest.map block_hash⟩ := rfl

theorem heartbeat_eq_enabled (s : State) :
    heartbeat s .enabled = (process_adapter_responses s).bind (fun p =>
      if p.1.adapter_queues.has_in_flight_get_successors_requests then
        some (p.1, tick_metrics p.1 p.2)
      else
        (get_successors_request p.1).bind (fun r =>
          match p.1.adapter_queues.push_request (.getSuccessorsRequest r) with
          | .ok q => some ({ p.1 with adapter_queues := q }, tick_metrics p.1 p.2)
          | .error (.queueFull _) => some (p.1, tick_metrics p.1 p.2)
          | .error .testnetFeatureNotEnabled => none
          | .error (.nonMatchingResponse _) => none)) := rfl

theorem heartbeat_eq_paused (s : State) :
    heartbeat s .paused =
      (process_adapter_responses s).bind (fun p => some (p.1, [])) := rfl

theorem heartbeat_eq_disabled (s : State) :
    heartbeat s .disabled =
      (process_adapter_responses s).bind (fun p => some (p.1, [])) := rfl

theorem heartbeat_of_par_none (s : State) (f : BitcoinFeature)
    (h : process_adapter_responses s = none) : heartbeat s f = none := by
  cases f with
  | enabled => rw [heartbeat_eq_enabled, h, Option.none_bind]
  | paused => rw [heartbeat_eq_paused, h, Option.none_bind]
  | disabled => rw [heartbeat_eq_disabled, h, Option.none_bind]

theorem heartbeat_gated (s u : State) (n : Nat) (f : BitcoinFeature)
    (hp : process_adapter_responses s = some (u, n))
    (hf : f = .paused ∨ f = .disabled) :
    heartbeat s f = some (u, []) := by
  rcases hf with hf | hf
  · rw [hf, heartbeat_eq_paused, hp, Option.some_bind]
  · rw [hf, heartbeat_eq_disabled, hp, Option.some_bind]

theorem heartbeat_enabled_some (s u : State) (n : Nat)
    (hp : process_adapter_responses s = some (u, n)) :
    ∃ v : State, heartbeat s .enabled = some (v, tick_metrics u n) ∧
      v.tree = u.tree ∧ v.utxos = u.utxos ∧
      v.adapter_queues.responses = u.adapter_queues.responses := by
  rw [heartbeat_eq_enabled, hp, Option.some_bind]
  by_cases hf : u.adapter_queues.has_in_flight_get_successors_requests = true
  · rw [if_pos hf]
    exact ⟨u, rfl, rfl, rfl, rfl⟩
  · rw [if_neg hf, get_successors_request_eq, Option.some_bind]
    by_cases he : u.adapter_queues.requests = []
    · rw [push_request_of_empty _ _ he]
      exact ⟨_, rfl, rfl, rfl, rfl⟩
    · rw [push_request_of_nonempty _ _ he]
      exact ⟨u, rfl, rfl, rfl, rfl⟩

theorem heartbeat_gated_requests (s : State) (f : BitcoinFeature)
    (hf : f = .paused ∨ f = .disabled) (p : State × List MetricEvent)
    (h : heartbeat s f = some p) :
    p.1.adapter_queues.requests = s.adapter_queues.requests := by
  cases hd : drain_responses s s.adapter_queues.responses with
  | none =>
    rw [heartbeat_of_par_none s f
      (by rw [process_adapter_responses_def, hd, Option.none_bind])] at h
    cases h
  | some u =>
    have hp : process_adapter_responses s = some (u, store.main_chain_height u) := by
      rw [process_adapter_responses_def, hd, Option.some_bind]
    rw [heartbeat_gated s u (store.main_chain_height u) f hp hf] at h
    have h2 : (u, ([] : List MetricEvent)) = p := Option.some.inj h
    rw [← h2]
    exact drain_responses_requests _ hd

theorem run_ticks_cons (f : BitcoinFeature) (s : State)
    (rs : List ResponseWrapper) (l : List (List ResponseWrapper)) :
    run_ticks f s (rs :: l) =
      (heartbeat (feed s rs) f).bind (fun p => run_ticks f p.1 l) := rfl

theorem heartbeat_wellformed_spec (s : State) (f : BitcoinFeature)
    (h : ∀ w ∈ all_wire_blocks s, (to_btc_block w).isSome) :
    ∃ (v : State) (e : List MetricEvent), heartbeat s f = some (v, e) ∧
      v.adapter_queues.responses = [] ∧
      v.tree = (List.foldl try_insert_wire s (all_wire_blocks s)).tree ∧
      v.utxos = (List.foldl try_insert_wire s (all_wire_blocks s)).utxos := by
  have hd : drain_responses s s.adapter_queues.responses =
      some (set_responses (List.foldl try_insert_wire s (all_wire_blocks s)) []) :=
    drain_responses_eq s.adapter_queues.responses s rfl h
  have hp : process_adapter_responses s =
      some (set_responses (List.foldl try_insert_wire s (all_wire_blocks s)) [],
        store.main_chain_height
          (set_responses (List.foldl try_insert_wire s (all_wire_blocks s)) [])) := by
    rw [process_adapter_responses_def, hd, Option.some_bind]
  cases f with
  | enabled =>
    obtain ⟨v, hv, ht, hu, hr⟩ := heartbeat_enabled_some s _ _ hp
    exact ⟨v, _, hv, hr, ht, hu⟩
  | paused =>
    exact ⟨_, _, heartbeat_gated s _ _ .paused hp (Or.inl rfl), rfl, rfl, rfl⟩
  | disabled =>
    exact ⟨_, _, heartbeat_gated s _ _ .disabled hp (Or.inr rfl), rfl, rfl, rfl⟩

/-! ### Claim theorems -/

/-- C1 (corrected): for every state whose queued response blocks all translate
(every fixed-length hash field has the expected 32-byte width), heartbeat
completes and returns an updated state in every feature mode; rejected blocks
and a full queue never prevent the tick from returning.  The correction:
malformed hashes DO prevent the tick from returning (see the counterexample),
because the translation result is `unwrap()`ed. -/
theorem heartbeat_total (s : State) (f : BitcoinFeature)
    (h : ∀ w ∈ all_wire_blocks s, (to_btc_block w).isSome) :
    (heartbeat s f).isSome := by
  obtain ⟨v, e, hv, _, _, _⟩ := heartbeat_wellformed_spec s f h
  rw [hv]
  rfl

/-- Witness for C1: a state with an in-flight request and a well-formed queued
response; the hypothesis holds and heartbeat returns a state. -/
theorem heartbeat_total_witness :
    (∀ w ∈ all_wire_blocks inFlightState, (to_btc_block w).isSome) ∧
    (heartbeat inFlightState .enabled).isSome :=
  ⟨by decide, heartbeat_total inFlightState .enabled (by decide)⟩

/-- Counterexample for C1 as stated: a queued response whose block has a
1-byte previous-block hash makes heartbeat trap (return no state at all). -/
theorem heartbeat_total_cex : heartbeat malformedState .enabled = none := by decide

/-- C2 (corrected): a wire block in which some fixed-length hash field (header
previous-block hash, header merkle root, or an input's previous-output
transaction id) does not have the 32-byte width fails to translate — but the
failure is an unwrap panic that aborts the whole tick, not a `MalformedHash`
error affecting only that block: the drain does not skip it and does not
continue with the remaining items. -/
theorem malformed_hash_aborts_tick (s : State) (f : BitcoinFeature) (w : Block)
    (hm : w ∈ all_wire_blocks s) (hb : bad_hash w) :
    to_btc_block w = none ∧ heartbeat s f = none := by
  have hw : to_btc_block w = none := to_btc_block_none hb
  refine ⟨hw, ?_⟩
  have hmem : ∃ r ∈ s.adapter_queues.responses, w ∈ response_blocks r := by
    have h2 : w ∈ (s.adapter_queues.responses.map response_blocks).flatten := hm
    obtain ⟨bl, hbl, hwbl⟩ := List.mem_flatten.mp h2
    obtain ⟨r, hr, hrb⟩ := List.mem_map.mp hbl
    exact ⟨r, hr, by rw [hrb]; exact hwbl⟩
  have hd : drain_responses s s.adapter_queues.responses = none :=
    drain_responses_none hw s.adapter_queues.responses s hmem
  exact heartbeat_of_par_none s f
    (by rw [process_adapter_responses_def, hd, Option.none_bind])

/-- Witness for C2: the malformed block of `malformedThenGoodState` satisfies
the hypotheses, its translation fails, and the tick aborts. -/
theorem malformed_hash_aborts_tick_witness :
    (malformedWireBlock ∈ all_wire_blocks malformedThenGoodState ∧
      bad_hash malformedWireBlock) ∧
    (to_btc_block malformedWireBlock = none ∧
      heartbeat malformedThenGoodState .enabled = none) :=
  ⟨⟨by decide, by decide⟩,
    malformed_hash_aborts_tick malformedThenGoodState .enabled malformedWireBlock
      (by decide) (by decide)⟩

/-- Counterexample for C2 as stated: with a malformed response followed by a
well-formed one, the tick returns no state at all — the remaining item is not
processed, so the drain did not skip the malformed block and continue. -/
theorem malformed_skip_continue_cex :
    heartbeat malformedThenGoodState .enabled = none ∧
    ∃ w ∈ all_wire_blocks malformedThenGoodState, (to_btc_block w).isSome := by
  constructor
  · decide
  · decide

/-- C3 (confirmed): the request built in a tick has its anchor equal to the
hash of the first element of the unstable-block sequence and its
`processed_block_hashes` equal to the hashes of the remaining unstable blocks
in the same order; anchor and exclusion list together are exactly the hashes
of the unstable set. -/
theorem anchor_correctness (s : State) (u : BtcBlock) (l : List BtcBlock)
    (h : store.get_unstable_blocks s = u :: l) :
    get_successors_request s = some ⟨block_hash u, l.map block_hash⟩ ∧
    block_hash u :: l.map block_hash =
      (store.get_unstable_blocks s).map block_hash := by
  have h2 : s.tree.root :: s.tree.rest = u :: l := h
  injection h2 with hu hl
  constructor
  · rw [get_successors_request_eq, hu, hl]
  · rw [h, List.map_cons]

/-- Witness for C3: in the initial state the unstable sequence is the sole
anchor block, so the request is anchored at its hash with an empty exclusion
list. -/
theorem anchor_correctness_witness :
    (store.get_unstable_blocks initialState = [genesisBlock]) ∧
    (get_successors_request initialState =
        some ⟨block_hash genesisBlock, List.map block_hash []⟩ ∧
      block_hash genesisBlock :: List.map block_hash [] =
        (store.get_unstable_blocks initialState).map block_hash) :=
  ⟨by decide, anchor_correctness initialState genesisBlock [] (by decide)⟩

/-- C4 (confirmed): whenever a `GetSuccessors` request is in flight at tick
start, any heartbeat that returns a state leaves the outstanding-request
content of the adapter queue unchanged: no second request is pushed. -/
theorem no_request_duplication (s : State) (f : BitcoinFeature) (v : State)
    (e : List MetricEvent)
    (h1 : s.adapter_queues.has_in_flight_get_successors_requests = true)
    (h2 : heartbeat s f = some (v, e)) :
    v.adapter_queues.requests = s.adapter_queues.requests := by
  cases hd : drain_responses s s.adapter_queues.responses with
  | none =>
    rw [heartbeat_of_par_none s f
      (by rw [process_adapter_responses_def, hd, Option.none_bind])] at h2
    cases h2
  | some u =>
    have hp : process_adapter_responses s = some (u, store.main_chain_height u) := by
      rw [process_adapter_responses_def, hd, Option.some_bind]
    have hq : u.adapter_queues.requests = s.adapter_queues.requests :=
      drain_responses_requests _ hd
    cases f with
    | enabled =>
      have hfl : u.adapter_queues.has_in_flight_get_successors_requests = true := by
        rw [has_in_flight_congr hq]
        exact h1
      rw [heartbeat_eq_enabled, hp, Option.some_bind, if_pos hfl] at h2
      have h3 : u = v := congrArg Prod.fst (Option.some.inj h2)
      rw [← h3]
      exact hq
    | paused =>
      rw [heartbeat_gated s u (store.main_chain_height u) .paused hp (Or.inl rfl)] at h2
      have h3 : u = v := congrArg Prod.fst (Option.some.inj h2)
      rw [← h3]
      exact hq
    | disabled =>
      rw [heartbeat_gated s u (store.main_chain_height u) .disabled hp (Or.inr rfl)] at h2
      have h3 : u = v := congrArg Prod.fst (Option.some.inj h2)
      rw [← h3]
      exact hq

/-- Witness for C4: a state with an in-flight request; after the tick the
request slot is untouched. -/
theorem no_request_duplication_witness :
    (inFlightState.adapter_queues.has_in_flight_get_successors_requests = true) ∧
    ∃ (v : State) (e : List MetricEvent), heartbeat inFlightState .enabled = some (v, e) ∧
      v.adapter_queues.requests = inFlightState.adapter_queues.requests := by
  refine ⟨by decide, ?_⟩
  refine ⟨_, _, rfl, ?_⟩
  exact no_request_duplication inFlightState .enabled _ _ (by decide) rfl

/-- C5 (corrected): for every state whose queued response blocks all translate
(32-byte hash fields), one heartbeat call empties the response queue and
attempts insertion for every block contained in every `GetSuccessors`
response, in FIFO arrival order of the responses and in the blocks' order
within each response — the resulting tree and UTXO index are the left fold of
the single-block insertion attempt over exactly that block sequence.  The
correction: for a state containing a malformed block the tick traps and the
queue is not emptied (see the counterexample). -/
theorem drain_completeness (s : State) (f : BitcoinFeature)
    (h : ∀ w ∈ all_wire_blocks s, (to_btc_block w).isSome) :
    ∃ (v : State) (e : List MetricEvent), heartbeat s f = some (v, e) ∧
      v.adapter_queues.responses = [] ∧
      v.tree = (List.foldl try_insert_wire s (all_wire_blocks s)).tree ∧
      v.utxos = (List.foldl try_insert_wire s (all_wire_blocks s)).utxos :=
  heartbeat_wellformed_spec s f h

/-- Witness for C5: a state queuing a well-formed block response followed by a
transaction-send response; the tick drains both and inserts the block. -/
theorem drain_completeness_witness :
    (∀ w ∈ all_wire_blocks wellFormedState, (to_btc_block w).isSome) ∧
    ∃ (v : State) (e : List MetricEvent), heartbeat wellFormedState .enabled = some (v, e) ∧
      v.adapter_queues.responses = [] ∧
      v.tree = (List.foldl try_insert_wire wellFormedState
        (all_wire_blocks wellFormedState)).tree ∧
      v.utxos = (List.foldl try_insert_wire wellFormedState
        (all_wire_blocks wellFormedState)).utxos :=
  ⟨by decide, drain_completeness wellFormedState .enabled (by decide)⟩

/-- Counterexample for C5 as stated: a state holding a well-formed response
followed by a malformed one; the tick returns no state, so after the heartbeat
call the response queue is not empty (a trap rolls the state back). -/
theorem drain_completeness_cex :
    heartbeat goodThenMalformedState .enabled = none ∧
    goodThenMalformedState.adapter_queues.responses ≠ [] := by
  constructor
  · decide
  · decide

/-- C6 (confirmed): with the feature paused or disabled, starting from a state
with no outstanding request, any number of ticks fed any response batches
leaves the request slot empty whenever the run returns a state:
`has_in_flight_get_successors_requests` stays false and no request is ever
pushed. -/
theorem feature_gating (f : BitcoinFeature) (hf : f = .paused ∨ f = .disabled) :
    ∀ (l : List (List ResponseWrapper)) (s : State),
      s.adapter_queues.requests = [] →
      ∀ v : State, run_ticks f s l = some v →
        v.adapter_queues.requests = [] ∧
        v.adapter_queues.has_in_flight_get_successors_requests = false := by
  intro l
  induction l with
  | nil =>
    intro s h0 v hr
    have h2 : some s = some v := hr
    rw [← Option.some.inj h2]
    exact ⟨h0, has_in_flight_of_nil h0⟩
  | cons rs rest ih =>
    intro s h0 v hr
    rw [run_ticks_cons] at hr
    cases hh : heartbeat (feed s rs) f with
    | none => rw [hh, Option.none_bind] at hr; cases hr
    | some p =>
      rw [hh, Option.some_bind] at hr
      have hq : p.1.adapter_queues.requests = [] :=
        (heartbeat_gated_requests (feed s rs) f hf p hh).trans h0
      exact ih p.1 hq v hr

/-- Witness for C6: one paused tick fed a well-formed block response; the
request slot stays empty and nothing is in flight. -/
theorem feature_gating_witness :
    ((BitcoinFeature.paused = .paused ∨ BitcoinFeature.paused = .disabled) ∧
      initialState.adapter_queues.requests = []) ∧
    ∃ v : State, run_ticks .paused initialState [[goodResponse]] = some v ∧
      v.adapter_queues.requests = [] ∧
      v.adapter_queues.has_in_flight_get_successors_requests = false := by
  refine ⟨⟨Or.inl rfl, rfl⟩, ?_⟩
  refine ⟨_, rfl, ?_⟩
  exact feature_gating .paused (Or.inl rfl) [[goodResponse]] initialState rfl _ rfl

/-- C7 (confirmed): a translated block whose parent hash matches no tree
member is rejected with `BlockDoesNotExtendTree`, the state (tree and UTXO
index included) is exactly as before the attempt, and the drain continues with
the remaining blocks from that same state. -/
theorem rejection_purity (s : State) (w : Block) (b : BtcBlock) (l : List Block)
    (ht : to_btc_block w = some b)
    (hp : b.header.prev_blockhash ∉ s.tree.member_hashes) :
    store.insert_block s b = .error ⟨block_hash b⟩ ∧
    try_insert_wire s w = s ∧
    process_blocks s (w :: l) = process_blocks s l := by
  refine ⟨insert_block_of_not_mem s b hp, ?_, ?_⟩
  · rw [try_insert_wire_of_some s ht, try_insert_of_not_mem s b hp]
  · exact process_blocks_cons_err l ht (insert_block_of_not_mem s b hp)

/-- Witness for C7: the orphan block is rejected against the initial tree and
processing continues with the remaining block. -/
theorem rejection_purity_witness :
    (to_btc_block orphanWireBlock = some orphanBtcBlock ∧
      orphanBtcBlock.header.prev_blockhash ∉ initialState.tree.member_hashes) ∧
    (store.insert_block initialState orphanBtcBlock =
        .error ⟨block_hash orphanBtcBlock⟩ ∧
      try_insert_wire initialState orphanWireBlock = initialState ∧
      process_blocks initialState (orphanWireBlock :: [goodWireBlock]) =
        process_blocks initialState [goodWireBlock]) :=
  ⟨⟨by decide, by decide⟩,
    rejection_purity initialState orphanWireBlock orphanBtcBlock [goodWireBlock]
      (by decide) (by decide)⟩

/-- C8 (corrected): with the feature paused or disabled, heartbeat still
drains all queued responses (its resulting state is exactly the post-drain
state), but it emits NO metric observations — the chain height and UTXO-index
size are reported only in Enabled mode — and it never enqueues a request; the
state effect on tree, UTXO index and response queue coincides with Enabled
mode.  The correction: the claim's "computes and reports" is wrong about
reporting, which happens only when enabled (see the counterexample). -/
theorem gated_modes_drain_without_reporting (s u : State) (n : Nat)
    (f : BitcoinFeature)
    (hp : process_adapter_responses s = some (u, n))
    (hf : f = .paused ∨ f = .disabled) :
    heartbeat s f = some (u, []) ∧
    ∀ (v : State) (e : List MetricEvent), heartbeat s .enabled = some (v, e) →
      v.tree = u.tree ∧ v.utxos = u.utxos ∧
      v.adapter_queues.responses = u.adapter_queues.responses := by
  refine ⟨heartbeat_gated s u n f hp hf, ?_⟩
  intro v e h2
  obtain ⟨x, hx, ht, hu, hr⟩ := heartbeat_enabled_some s u n hp
  rw [hx] at h2
  have h3 : x = v := congrArg Prod.fst (Option.some.inj h2)
  rw [← h3]
  exact ⟨ht, hu, hr⟩

/-- Witness for C8: the initial state, disabled mode. -/
theorem gated_modes_witness :
    (process_adapter_responses initialState = some (initialState, 0) ∧
      (BitcoinFeature.disabled = .paused ∨ BitcoinFeature.disabled = .disabled)) ∧
    (heartbeat initialState .disabled = some (initialState, []) ∧
      ∀ (v : State) (e : List MetricEvent),
        heartbeat initialState .enabled = some (v, e) →
          v.tree = initialState.tree ∧ v.utxos = initialState.utxos ∧
          v.adapter_queues.responses = initialState.adapter_queues.responses) :=
  ⟨⟨by decide, Or.inr rfl⟩,
    gated_modes_drain_without_reporting initialState initialState 0 .disabled
      (by decide) (Or.inr rfl)⟩

/-- Counterexample for C8 as stated: in Disabled mode the tick emits no metric
observation at all, while Enabled mode does — so Disabled mode does not
"report the current chain height and UTXO-index size", and the two modes
differ in more than request enqueuing. -/
theorem gated_modes_reporting_cex :
    (heartbeat initialState .disabled).map Prod.snd = some [] ∧
    (heartbeat initialState .enabled).map Prod.snd ≠ some [] := by
  constructor
  · decide
  · decide

/-- C9 (confirmed): the unstable-block sequence is never empty (the tree
always holds at least its anchor as an addressable member), so removing the
first element to serve as the request anchor always succeeds: the
empty-sequence (panic) branch of `get_successors_request` is unreachable. -/
theorem request_construction_total (s : State) :
    store.get_unstable_blocks s ≠ [] ∧ (get_successors_request s).isSome := by
  constructor
  · exact fun h => List.cons_ne_nil s.tree.root s.tree.rest h
  · rw [get_successors_request_eq]
    rfl

/-- C10 (confirmed): a queued `SendTransactionResponse` is popped and
discarded by the drain without any effect on the tree or the UTXO index: the
tick behaves exactly as if the queue held only the remaining responses. -/
theorem send_transaction_response_discarded (s : State) (x : List Nat)
    (l : List ResponseWrapper) (f : BitcoinFeature) :
    heartbeat (set_responses s (.sendTransactionResponse x :: l)) f =
      heartbeat (set_responses s l) f := by
  have hd : drain_responses (set_responses s (.sendTransactionResponse x :: l))
      (.sendTransactionResponse x :: l) = drain_responses (set_responses s l) l := by
    rw [drain_responses_cons_send, set_responses_set]
  have hpar : process_adapter_responses (set_responses s (.sendTransactionResponse x :: l)) =
      process_adapter_responses (set_responses s l) := by
    rw [process_adapter_responses_def, process_adapter_responses_def,
      show (set_responses s (.sendTransactionResponse x :: l)).adapter_queues.responses =
        .sendTransactionResponse x :: l from rfl,
      show (set_responses s l).adapter_queues.responses = l from rfl, hd]
  cases f with
  | enabled => rw [heartbeat_eq_enabled, heartbeat_eq_enabled, hpar]
  | paused => rw [heartbeat_eq_paused, heartbeat_eq_paused, hpar]
  | disabled => rw [heartbeat_eq_disabled, heartbeat_eq_disabled, hpar]

end BtcSync
